import Mathlib

/-!
Verification of the core algorithms of `zfs_apt_snapshot.py`, an APT
pre-install hook that snapshots the ZFS datasets a pending package
operation will touch.

The development shallowly embeds the relevant Python functions:

* `directories_for_package` — the path reducer that collapses a package's
  file list into a set of leaf directories (`PurePath` models
  `pathlib.PurePosixPath`);
* `get_files` — the versioned APT hook-protocol parser;
* `get_filesystems` — longest-mountpoint volume resolution;
* the `com.sun:auto-snapshot` policy filter from `main`;
* the snapshot namer (`main`) and the timestamp matcher / staleness
  check (`list_old`), including the `strptime` format-fallback family.

External collaborators (the APT cache, `.deb` archive reader, mount
table, ZFS property store) are passed in as explicit oracle arguments,
matching the interface boundary of the script.
-/

namespace ZfsAptSnapshot

/-! ### Python string primitives -/

/-- Characters treated as whitespace by Python's `str.strip()` (ASCII range). -/
def pySpace (c : Char) : Bool :=
  c == ' ' || c == '\t' || c == '\n' || c == '\r' || c == '\x0b' || c == '\x0c'

/-- Model of Python `str.strip()` with no arguments (whitespace stripped from
both ends). -/
def pyStrip (s : String) : String :=
  ⟨((s.data.dropWhile pySpace).reverse.dropWhile pySpace).reverse⟩

/-- Numeric value of a decimal digit character; `none` for non-digits. -/
def digitVal (c : Char) : Option Nat :=
  if '0' ≤ c ∧ c ≤ '9' then some (c.toNat - 48) else none

/-- Decimal digits of a natural number, most significant first
(e.g. `natDigits 120 = ['1', '2', '0']`). -/
def natDigits (n : Nat) : List Char :=
  if h : n < 10 then [Char.ofNat (48 + n)]
  else natDigits (n / 10) ++ [Char.ofNat (48 + n % 10)]
decreasing_by exact Nat.div_lt_self (by omega) (by omega)

/-- Decimal string of a natural number, built from `natDigits`. -/
def natRepr (n : Nat) : String := ⟨natDigits n⟩

/-- Digit-run parser used by the `int()` model: consumes the whole remaining
character list after the first digit, allowing single underscores strictly
between digits (Python 3.6+ integer-literal rule). -/
def pyIntDigits : Nat → List Char → Option Nat
  | acc, [] => some acc
  | acc, c :: rest =>
    if c = '_' then
      match rest with
      | c2 :: rest2 =>
        match digitVal c2 with
        | some d => pyIntDigits (acc * 10 + d) rest2
        | none => none
      | [] => none
    else
      match digitVal c with
      | some d => pyIntDigits (acc * 10 + d) rest
      | none => none

/-- Sign-and-digit-run stage of the `int()` model, over the stripped
character list. -/
def pyIntCore : List Char → Option Int
  | [] => none
  | c :: rest =>
    if c = '+' then
      match rest with
      | c2 :: rest2 =>
        match digitVal c2 with
        | some d => (pyIntDigits d rest2).map Int.ofNat
        | none => none
      | [] => none
    else if c = '-' then
      match rest with
      | c2 :: rest2 =>
        match digitVal c2 with
        | some d => (pyIntDigits d rest2).map (fun m => -(Int.ofNat m))
        | none => none
      | [] => none
    else
      match digitVal c with
      | some d => (pyIntDigits d rest).map Int.ofNat
      | none => none

/-- Model of Python `int(s)` on text: surrounding whitespace is ignored, an
optional sign is allowed, and the rest must be a nonempty digit run
(underscores permitted between digits).  `none` models `ValueError`. -/
def pyInt (s : String) : Option Int := pyIntCore (pyStrip s).data

/-! ### `pathlib.PurePosixPath` model

A parsed POSIX path is a root marker (`""` for relative paths, `"/"` or the
special double-slash `"//"` for absolute ones) together with the list of
non-empty, non-`"."` components. -/

/-- Model of `pathlib.PurePosixPath`: root marker plus components. -/
structure PurePath where
  root : String
  parts : List String
deriving DecidableEq, Repr

/-- The path `PurePosixPath("/")`. -/
def PurePath.rootPath : PurePath := ⟨"/", []⟩

/-- Split a character list on `'/'` separators (keeping empty pieces, as
`str.split('/')` does). -/
def splitSlash : List Char → List (List Char)
  | [] => [[]]
  | c :: rest =>
    if c = '/' then [] :: splitSlash rest
    else
      match splitSlash rest with
      | [] => [[c]]
      | h :: t => (c :: h) :: t

/-- Parse a path string the way `PurePosixPath` does: leading slashes determine
the root (exactly two slashes are the special `"//"` root), and empty and `"."`
components are dropped. -/
def parsePath (s : String) : PurePath :=
  let cs := s.data
  let k := (cs.takeWhile (· == '/')).length
  let root := if k == 0 then "" else if k == 2 then "//" else "/"
  let comps := (splitSlash (cs.drop k)).filter (fun c => !(c == []) && !(c == ['.']))
  ⟨root, comps.map (fun c => ⟨c⟩)⟩

/-- Model of `PurePosixPath.parts`: the root marker (when absolute) followed by
the components. -/
def PurePath.pyParts (p : PurePath) : List String :=
  (if p.root = "" then [] else [p.root]) ++ p.parts

/-- Model of `PurePosixPath.parents`: every proper ancestor of the path, sharing
its root (the list `[root, root/p1, ..., root/p1...p(n-1)]`, in any order —
only membership matters for the set operations that consume it). -/
def parentsList (p : PurePath) : List PurePath :=
  (List.range p.parts.length).map (fun k => ⟨p.root, p.parts.take k⟩)

/-- Model of the `/` join operator: a child with a root replaces the parent,
otherwise components are appended. -/
def pathJoin (a b : PurePath) : PurePath :=
  if b.root = "" then ⟨a.root, a.parts ++ b.parts⟩ else b

/-! ### `directories_for_package` (the path reducer) -/

/-- Failure modes of `directories_for_package`: `indexError` models
`path_strs[0]` on an empty list, `nameError` models the use of the (possibly
never assigned) local holding the root path used to qualify relative entries. -/
inductive DirErr where
  | indexError
  | nameError
deriving DecidableEq, Repr

/-- One loop iteration of `directories_for_package`:
`directories.difference_update(path.parents); directories.add(path)`. -/
def insertPath (dirs : Finset PurePath) (p : PurePath) : Finset PurePath :=
  (dirs \ (parentsList p).toFinset) ∪ {p}

/-- The skip test from the generator expression in `directories_for_package`:
`if p not in {"./", "/.", "", "."}`. -/
def notSkipped (p : String) : Bool :=
  !(p == "./" || p == "/." || p == "" || p == ".")

/-- The loop of `directories_for_package` over the filtered entries: each entry
is parsed, qualified with the root when relative (failing when the root local
was never assigned), and inserted after removing its ancestors. -/
def dfpGo (pre : Option PurePath) :
    List String → Finset PurePath → Except DirErr (Finset PurePath)
  | [], dirs => .ok dirs
  | p :: rest, dirs =>
    let path := parsePath p
    if path.root = "" then
      match pre with
      | none => .error .nameError
      | some pr => dfpGo pre rest (insertPath dirs (pathJoin pr path))
    else dfpGo pre rest (insertPath dirs path)

/-- Model of `directories_for_package` applied to a package's file list
(the `path_strs` drawn from `pkg.filelist` or `pkg.installed_files`): the first
entry decides whether a `/` root is available for later relative entries, the
skip set is filtered out, and each remaining entry displaces its ancestors in
the accumulated set. -/
def directories_for_package (path_strs : List String) :
    Except DirErr (Finset PurePath) :=
  match path_strs with
  | [] => .error .indexError
  | first :: _ =>
    let pre := if first == "./" || first == "/." || first == "/"
      then some PurePath.rootPath else none
    dfpGo pre (path_strs.filter notSkipped) ∅

/-- The root-qualification value computed from the first entry of the file
list (`path_prefix` in the source): assigned only when the first entry is one
of the three root markers. -/
def dfpPre (l : List String) : Option PurePath :=
  match l with
  | [] => none
  | first :: _ =>
    if first == "./" || first == "/." || first == "/"
    then some PurePath.rootPath else none

/-- Bool test for "the first entry is one of the root markers". -/
def headIsRootMarker (l : List String) : Bool :=
  match l with
  | [] => false
  | first :: _ => first == "./" || first == "/." || first == "/"

/-- The per-entry resolution of `directories_for_package`, separated from the
set accumulation: the list of paths in processing order, each parsed and
root-qualified when relative. -/
def resolvePaths (pre : Option PurePath) :
    List String → Except DirErr (List PurePath)
  | [] => .ok []
  | p :: rest =>
    let path := parsePath p
    if path.root = "" then
      match pre with
      | none => .error .nameError
      | some pr => (resolvePaths pre rest).map (fun ps => pathJoin pr path :: ps)
    else (resolvePaths pre rest).map (fun ps => path :: ps)

/-- The leaf-only invariant claimed of the returned directory set: no member is
a path ancestor of another member. -/
def PrefixFree (S : Finset PurePath) : Prop :=
  ∀ a ∈ S, ∀ b ∈ S, a ∉ parentsList b

theorem parts_length_lt_of_mem_parentsList {a b : PurePath}
    (h : a ∈ parentsList b) : a.parts.length < b.parts.length := by
  simp only [parentsList, List.mem_map, List.mem_range] at h
  obtain ⟨k, hk, rfl⟩ := h
  simp only [List.length_take]
  omega

theorem not_mem_parentsList_self (p : PurePath) : p ∉ parentsList p := by
  intro h
  exact absurd (parts_length_lt_of_mem_parentsList h) (Nat.lt_irrefl _)

theorem dfpGo_eq_resolvePaths (pre : Option PurePath) (l : List String)
    (dirs : Finset PurePath) :
    dfpGo pre l dirs = (resolvePaths pre l).map (fun ps => ps.foldl insertPath dirs) := by
  induction l generalizing dirs with
  | nil => rfl
  | cons p rest ih =>
    simp only [dfpGo, resolvePaths]
    by_cases hroot : (parsePath p).root = ""
    · simp only [hroot, if_pos rfl]
      match pre with
      | none => rfl
      | some pr =>
        simp only [ih]
        cases resolvePaths (some pr) rest <;> rfl
    · simp only [if_neg hroot, ih]
      cases resolvePaths pre rest <;> rfl

theorem foldl_insertPath_prefixFree :
    ∀ (ps : List PurePath) (acc : Finset PurePath),
      PrefixFree acc →
      ps.Pairwise (fun a b => b ∉ parentsList a) →
      (∀ a ∈ acc, ∀ p ∈ ps, p ∉ parentsList a) →
      PrefixFree (ps.foldl insertPath acc)
  | [], acc, hacc, _, _ => hacc
  | p :: ps, acc, hacc, hord, hfut => by
    rw [List.foldl_cons]
    rw [List.pairwise_cons] at hord
    refine foldl_insertPath_prefixFree ps (insertPath acc p) ?_ hord.2 ?_
    · intro a ha b hb
      simp only [insertPath, Finset.mem_union, Finset.mem_sdiff,
        Finset.mem_singleton, List.mem_toFinset] at ha hb
      rcases ha with ⟨haacc, hanp⟩ | rfl
      · rcases hb with ⟨hbacc, _⟩ | rfl
        · exact hacc a haacc b hbacc
        · exact hanp
      · rcases hb with ⟨hbacc, _⟩ | rfl
        · exact hfut b hbacc a (List.mem_cons_self _ _)
        · exact not_mem_parentsList_self _
    · intro a ha q hq
      simp only [insertPath, Finset.mem_union, Finset.mem_sdiff,
        Finset.mem_singleton, List.mem_toFinset] at ha
      rcases ha with ⟨haacc, _⟩ | rfl
      · exact hfut a haacc q (List.mem_cons_of_mem _ hq)
      · exact hord.1 q hq

/-- Claim C1 (amended): the directory set returned by the path reducer is
prefix-free provided no resolved entry is a proper path ancestor of an entry
resolved before it (in particular for ancestor-before-descendant file lists, as
produced by dpkg); the order-independence asserted by the original claim fails
(see the counterexample). -/
theorem directories_for_package_prefixFree (l : List String)
    (S : Finset PurePath) (ps : List PurePath)
    (hres : resolvePaths (dfpPre l) (l.filter notSkipped) = .ok ps)
    (hord : ps.Pairwise (fun a b => b ∉ parentsList a))
    (hok : directories_for_package l = .ok S) :
    PrefixFree S := by
  match l with
  | [] => exact absurd hok (by simp [directories_for_package])
  | first :: t =>
    rw [directories_for_package, dfpGo_eq_resolvePaths] at hok
    have hpre : (if first == "./" || first == "/." || first == "/"
        then some PurePath.rootPath else none) = dfpPre (first :: t) := rfl
    rw [hpre, hres] at hok
    simp only [Except.map, Except.ok.injEq] at hok
    subst hok
    exact foldl_insertPath_prefixFree ps ∅ (by intro a ha; simp at ha) hord
      (by intro a ha; simp at ha)

/-- Claim C1, counterexample to the order-independent statement: for the input
list `["/a/b", "/a"]` (a descendant listed before its ancestor), the returned
set contains both `/a/b` and `/a`, and `/a` is a path ancestor of `/a/b`. -/
theorem directories_for_package_order_ce :
    (directories_for_package ["/a/b", "/a"]).toOption =
      some {⟨"/", ["a", "b"]⟩, ⟨"/", ["a"]⟩} ∧
    (⟨"/", ["a"]⟩ : PurePath) ∈ parentsList ⟨"/", ["a", "b"]⟩ := by
  constructor
  · rfl
  · decide

/-- Witness for `directories_for_package_prefixFree` at the concrete list
`["/a", "/a/b"]`. -/
theorem directories_for_package_prefixFree_witness :
    PrefixFree {(⟨"/", ["a", "b"]⟩ : PurePath)} :=
  directories_for_package_prefixFree ["/a", "/a/b"]
    {(⟨"/", ["a", "b"]⟩ : PurePath)}
    [⟨"/", ["a"]⟩, ⟨"/", ["a", "b"]⟩] (by rfl) (by decide) (by rfl)

/-- Claim C3 (amended): the skip set of the path reducer contains exactly the
four entries `"./"`, `"/."`, `""` and `"."` — inserting such an entry anywhere
after the first position leaves the result unchanged.  The entry `"/"` is NOT
skipped (see the counterexample). -/
theorem directories_for_package_skip_set (l₁ l₂ : List String) (e : String)
    (he : e = "./" ∨ e = "/." ∨ e = "" ∨ e = ".") (h1 : l₁ ≠ []) :
    directories_for_package (l₁ ++ e :: l₂) = directories_for_package (l₁ ++ l₂) := by
  match l₁ with
  | [] => exact absurd rfl h1
  | f :: t =>
    have hne : notSkipped e = false := by
      rcases he with rfl | rfl | rfl | rfl <;> rfl
    simp only [List.cons_append, directories_for_package, List.filter_append,
      List.filter_cons, hne]
    rfl

/-- Witness for `directories_for_package_skip_set`: inserting `"."` after
`"/a"` changes nothing. -/
theorem directories_for_package_skip_set_witness :
    directories_for_package ["/a", ".", "/b"] = directories_for_package ["/a", "/b"] :=
  directories_for_package_skip_set ["/a"] ["/b"] "."
    (by simp) (by simp)

/-- Claim C3, counterexample: the entry `"/"` is not in the skip set — the
input list `["/"]` produces a non-empty directory set (containing the root
path), so `"/"` does contribute a member. -/
theorem directories_for_package_slash_ce :
    (directories_for_package ["/"]).toOption = some {PurePath.rootPath} ∧
    ({PurePath.rootPath} : Finset PurePath) ≠ ∅ := by
  constructor
  · rfl
  · decide

theorem resolvePaths_isOk_of_some (pr : PurePath) (l : List String) :
    ∃ ps, resolvePaths (some pr) l = .ok ps := by
  induction l with
  | nil => exact ⟨[], rfl⟩
  | cons p rest ih =>
    obtain ⟨ps, hps⟩ := ih
    by_cases h : (parsePath p).root = ""
    · exact ⟨_, by simp only [resolvePaths, if_pos h, hps]; rfl⟩
    · exact ⟨_, by simp only [resolvePaths, if_neg h, hps]; rfl⟩

theorem resolvePaths_none_isOk (l : List String) :
    (∃ ps, resolvePaths none l = .ok ps) ↔ ∀ p ∈ l, (parsePath p).root ≠ "" := by
  induction l with
  | nil => simp [resolvePaths]
  | cons p rest ih =>
    by_cases h : (parsePath p).root = ""
    · simp only [resolvePaths, if_pos h]
      constructor
      · rintro ⟨ps, hps⟩; cases hps
      · intro hall; exact absurd h (hall p (List.mem_cons_self _ _))
    · simp only [resolvePaths, if_neg h]
      constructor
      · rintro ⟨ps, hps⟩ q hq
        rcases List.mem_cons.mp hq with rfl | hq'
        · exact h
        · refine ih.mp ?_ q hq'
          cases hres : resolvePaths none rest with
          | ok ps' => exact ⟨ps', rfl⟩
          | error e => rw [hres] at hps; cases hps
      · intro hall
        obtain ⟨ps, hps⟩ := ih.mpr (fun q hq => hall q (List.mem_cons_of_mem _ hq))
        exact ⟨_, by rw [hps]; rfl⟩

theorem resolvePaths_error_eq (pre : Option PurePath) (l : List String) (e : DirErr)
    (h : resolvePaths pre l = .error e) : e = .nameError := by
  induction l with
  | nil => cases h
  | cons q rest ih =>
    simp only [resolvePaths] at h
    by_cases hq : (parsePath q).root = ""
    · rw [if_pos hq] at h
      match pre, h with
      | none, h => cases h; rfl
      | some pr, h =>
        cases h3 : resolvePaths (some pr) rest with
        | ok ps' => rw [h3] at h; cases h
        | error e3 => rw [h3] at h; cases h; exact ih h3
    · rw [if_neg hq] at h
      cases h3 : resolvePaths pre rest with
      | ok ps' => rw [h3] at h; cases h
      | error e3 => rw [h3] at h; cases h; exact ih h3

theorem dfp_cons_eq (first : String) (t : List String) :
    directories_for_package (first :: t) =
      (resolvePaths (dfpPre (first :: t)) ((first :: t).filter notSkipped)).map
        (fun ps => ps.foldl insertPath ∅) := by
  rw [directories_for_package, dfpGo_eq_resolvePaths]
  rfl

theorem directories_for_package_ok_iff (l : List String) :
    (∃ S, directories_for_package l = .ok S) ↔
      (l ≠ [] ∧ ∃ ps, resolvePaths (dfpPre l) (l.filter notSkipped) = .ok ps) := by
  match l with
  | [] =>
    constructor
    · rintro ⟨S, hS⟩; cases hS
    · rintro ⟨h, _⟩; exact absurd rfl h
  | first :: t =>
    rw [dfp_cons_eq]
    constructor
    · rintro ⟨S, hS⟩
      refine ⟨by simp, ?_⟩
      cases hres : resolvePaths (dfpPre (first :: t)) ((first :: t).filter notSkipped) with
      | ok ps => exact ⟨ps, rfl⟩
      | error e => rw [hres] at hS; cases hS
    · rintro ⟨_, ps, hps⟩
      rw [hps]
      exact ⟨_, rfl⟩

/-- Claim C10: `directories_for_package` returns without raising exactly when
the file list is non-empty and either every non-skipped entry parses to an
absolute path or the first entry is one of the three root markers; the empty
list raises `IndexError`, and a list with a relative non-skipped entry but no
root marker first raises `NameError` (the root local is used unassigned). -/
theorem directories_for_package_totality :
    (∀ l : List String, (∃ S, directories_for_package l = .ok S) ↔
      (l ≠ [] ∧ ((∀ p ∈ l, notSkipped p = true → (parsePath p).root ≠ "") ∨
        headIsRootMarker l = true))) ∧
    directories_for_package [] = .error .indexError ∧
    (∀ l : List String, headIsRootMarker l = false →
      (∃ p ∈ l, notSkipped p = true ∧ (parsePath p).root = "") →
      directories_for_package l = .error .nameError) := by
  have hkey : ∀ l : List String, (∃ S, directories_for_package l = .ok S) ↔
      (l ≠ [] ∧ ((∀ p ∈ l, notSkipped p = true → (parsePath p).root ≠ "") ∨
        headIsRootMarker l = true)) := by
    intro l
    rw [directories_for_package_ok_iff]
    match l with
    | [] =>
      constructor
      · rintro ⟨h, _⟩; exact absurd rfl h
      · rintro ⟨h, _⟩; exact absurd rfl h
    | first :: t =>
      have hmarker : dfpPre (first :: t) =
          (if headIsRootMarker (first :: t) = true
            then some PurePath.rootPath else none) := by
        simp only [dfpPre, headIsRootMarker]
      by_cases hm : headIsRootMarker (first :: t) = true
      · rw [hmarker, if_pos hm]
        constructor
        · intro _; exact ⟨by simp, Or.inr hm⟩
        · intro _; exact ⟨by simp, resolvePaths_isOk_of_some _ _⟩
      · rw [hmarker, if_neg hm]
        constructor
        · rintro ⟨_, hex⟩
          refine ⟨by simp, Or.inl ?_⟩
          intro p hp hns
          exact (resolvePaths_none_isOk _).mp hex p (List.mem_filter.mpr ⟨hp, hns⟩)
        · rintro ⟨_, hall | hmm⟩
          · refine ⟨by simp, (resolvePaths_none_isOk _).mpr ?_⟩
            intro p hp
            have := List.mem_filter.mp hp
            exact hall p this.1 this.2
          · exact absurd hmm hm
  refine ⟨hkey, rfl, ?_⟩
  rintro l hm ⟨p, hp, hns, hrel⟩
  match l, hp with
  | first :: t, hp =>
    have hnotok : ¬ ∃ S, directories_for_package (first :: t) = .ok S := by
      intro hok
      rcases ((hkey _).mp hok).2 with hall | hmm
      · exact absurd hrel (hall p hp hns)
      · rw [hm] at hmm; cases hmm
    rw [dfp_cons_eq] at hnotok ⊢
    cases hres : resolvePaths (dfpPre (first :: t)) ((first :: t).filter notSkipped) with
    | ok ps => exact absurd ⟨_, by rw [hres]; rfl⟩ hnotok
    | error e =>
      have he := resolvePaths_error_eq _ _ e hres
      subst he
      rfl

/-- Witness for `directories_for_package_totality`: the `NameError` branch at
the concrete list `["/x", "a"]` and the success branch at `["/x"]`. -/
theorem directories_for_package_totality_witness :
    directories_for_package ["/x", "a"] = .error .nameError ∧
    (∃ S, directories_for_package ["/x"] = .ok S) :=
  ⟨directories_for_package_totality.2.2 ["/x", "a"] (by rfl)
      ⟨"a", by simp, by rfl, by rfl⟩,
    (directories_for_package_totality.1 ["/x"]).mpr
      ⟨by simp, Or.inl (by decide)⟩⟩

/-! ### `get_files` (the APT hook-protocol reader)

The stream is the list of raw lines the script would obtain from repeated
`readline()` calls (already newline-free; reading past the end yields `""`,
which after `strip()` is indistinguishable from a blank line, exactly as in
the script's loop conditions).  The two collaborators are oracles:
`arch path` is the file list of the `.deb` archive at `path`
(`DebPackage(filename=path).filelist`) and `cache name` is
`(pkg.is_installed, pkg.installed_files)` for the APT-cache package of that
name (`none` models a `KeyError` on `apt_cache[name]`). -/

/-- Failure modes of `get_files`: `valueError` models the uncaught `int()` or
tuple-unpacking `ValueError`, `unsupportedVersion` models the logged
`sys.exit(1)`, `keyError` a missing package in the APT cache, and `dirError`
an exception escaping `directories_for_package`. -/
inductive GFErr where
  | valueError
  | unsupportedVersion (v : Int)
  | keyError
  | dirError (e : DirErr)
deriving DecidableEq, Repr

/-- Model of `stream.readline().strip()`: the next line (stripped) and the
rest of the stream; at end of stream, the empty string. -/
def readline : List String → String × List String
  | [] => ("", [])
  | l :: rest => (pyStrip l, rest)

/-- Model of Python `s.startswith(p)`. -/
def pyStartsWith (s p : String) : Bool := p.data.isPrefixOf s.data

/-- Version detection from the (stripped) first line: a line starting with the
literal `"VERSION "` has its remainder fed to `int()` (whose failure
propagates), any other line defaults the protocol version to 1. -/
def detect_version (line : String) : Except GFErr Int :=
  if pyStartsWith line "VERSION " then
    match pyInt (line.drop 8) with
    | some n => .ok n
    | none => .error .valueError
  else .ok 1

/-- The configuration-block skip of versions 2/3: lines are consumed up to and
including the first one that strips to `""` (or to the end of the stream). -/
def skipConfig : List String → List String
  | [] => []
  | l :: rest => if pyStrip l = "" then rest else skipConfig rest

/-- Model of `line.rsplit(" ", maxsplit)`: at most `maxsplit` splits, taken
from the right. -/
def pyRsplitSpace (s : String) (maxsplit : Nat) : List String :=
  let parts := s.splitOn " "
  if parts.length ≤ maxsplit + 1 then parts
  else
    let keep := parts.length - maxsplit
    (String.intercalate " " (parts.take keep)) :: parts.drop keep

/-- The version-1 record loop: starting from the line already in hand (the
very line version detection just looked at), every non-blank line is passed to
`DebPackage` as an archive path; the returned pair collects the archive paths
read, in order, and the accumulated directory set. -/
def v1Loop (arch : String → List String) :
    List String → String → List String → Finset PurePath →
      Except GFErr (List String × Finset PurePath)
  | st, line, reads, dirs =>
    if line = "" then .ok (reads, dirs)
    else
      match directories_for_package (arch line) with
      | .error e => .error (.dirError e)
      | .ok ds =>
        match st with
        | [] => .ok (reads ++ [line], dirs ∪ ds)
        | l :: rest => v1Loop arch rest (pyStrip l) (reads ++ [line]) (dirs ∪ ds)

/-- One version-2/3 record: reverse-split bounded by the field count, unpack
`pkg_name, installed_version, *_, action` (fewer than three fields is a
`ValueError`), then branch on the action token exactly as the source does.
Returns the archive paths read by this record and the updated directory set. -/
def recordStep (arch : String → List String)
    (cache : String → Option (Bool × List String)) (fieldCount : Nat)
    (line : String) (dirs : Finset PurePath) :
    Except GFErr (List String × Finset PurePath) :=
  match pyRsplitSpace line (fieldCount - 1) with
  | pkg_name :: installed_version :: f3 :: more =>
    let action := (f3 :: more).getLast (by simp)
    if action = "**REMOVE**" || action = "**CONFIGURE**" then
      match cache pkg_name with
      | none => .error .keyError
      | some (installed, files) =>
        if installed then
          match directories_for_package files with
          | .error e => .error (.dirError e)
          | .ok ds => .ok ([], dirs ∪ ds)
        else .ok ([], dirs)
    else
      match directories_for_package (arch action) with
      | .error e => .error (.dirError e)
      | .ok ds =>
        if installed_version ≠ "-" then
          match cache pkg_name with
          | none => .error .keyError
          | some (_, files) =>
            match directories_for_package files with
            | .error e => .error (.dirError e)
            | .ok ds2 => .ok ([action], dirs ∪ ds ∪ ds2)
        else .ok ([action], dirs ∪ ds)
  | _ => .error .valueError

/-- The version-2/3 record loop over the remaining non-blank lines. -/
def recordsLoop (arch : String → List String)
    (cache : String → Option (Bool × List String)) (fieldCount : Nat) :
    List String → String → List String → Finset PurePath →
      Except GFErr (List String × Finset PurePath)
  | st, line, reads, dirs =>
    if line = "" then .ok (reads, dirs)
    else
      match recordStep arch cache fieldCount line dirs with
      | .error e => .error e
      | .ok (newReads, dirs') =>
        match st with
        | [] => .ok (reads ++ newReads, dirs')
        | l :: rest => recordsLoop arch cache fieldCount rest (pyStrip l)
            (reads ++ newReads) dirs'

/-- Model of `get_files`: detect the protocol version from the first line,
reject unsupported versions, then read either the version-1 bare archive list
(starting, as the source does, from the line already in hand) or the
version-2/3 config block and records.  The result pairs the archive paths
passed to `DebPackage`, in order, with the directory set. -/
def get_files (arch : String → List String)
    (cache : String → Option (Bool × List String)) (stream : List String) :
    Except GFErr (List String × Finset PurePath) :=
  let p := readline stream
  match detect_version p.1 with
  | .error e => .error e
  | .ok version =>
    if ¬(1 ≤ version ∧ version ≤ 3) then .error (.unsupportedVersion version)
    else if version = 1 then v1Loop arch p.2 p.1 [] ∅
    else
      let fieldCount : Nat := if version = 2 then 5 else 9
      let q := readline (skipConfig p.2)
      recordsLoop arch cache fieldCount q.2 q.1 [] ∅

/-! ### Decimal-digit arithmetic, needed for the `int()` round trip -/

/-- One step of decimal accumulation while scanning digits left to right. -/
def digitStep (a : Nat) (c : Char) : Nat := a * 10 + (digitVal c).getD 0

theorem digitVal_ofNat {d : Nat} (h : d < 10) :
    digitVal (Char.ofNat (48 + d)) = some d := by
  interval_cases d <;> rfl

theorem digit_char_props {d : Nat} (h : d < 10) :
    pySpace (Char.ofNat (48 + d)) = false ∧ Char.ofNat (48 + d) ≠ '+' ∧
      Char.ofNat (48 + d) ≠ '-' ∧ Char.ofNat (48 + d) ≠ '_' := by
  interval_cases d <;> exact ⟨rfl, by decide, by decide, by decide⟩

theorem natDigits_mem (n : Nat) :
    ∀ c ∈ natDigits n, ∃ d, d < 10 ∧ c = Char.ofNat (48 + d) := by
  induction n using Nat.strong_induction_on with
  | _ n ih =>
    rw [natDigits]
    split
    · next h =>
      intro c hc
      simp only [List.mem_singleton] at hc
      exact ⟨n, h, hc⟩
    · next h =>
      intro c hc
      rw [List.mem_append] at hc
      rcases hc with hc | hc
      · exact ih (n / 10) (Nat.div_lt_self (by omega) (by omega)) c hc
      · simp only [List.mem_singleton] at hc
        exact ⟨n % 10, Nat.mod_lt _ (by omega), hc⟩

theorem natDigits_ne_nil (n : Nat) : natDigits n ≠ [] := by
  rw [natDigits]
  split <;> simp

theorem natDigits_foldl (n : Nat) :
    ∀ acc, (natDigits n).foldl digitStep acc = acc * 10 ^ (natDigits n).length + n := by
  induction n using Nat.strong_induction_on with
  | _ n ih =>
    intro acc
    rw [natDigits]
    split
    · next h =>
      simp only [List.foldl_cons, List.foldl_nil, List.length_singleton,
        pow_one, digitStep, digitVal_ofNat h, Option.getD_some]
    · next h =>
      rw [List.foldl_append, ih (n / 10) (Nat.div_lt_self (by omega) (by omega)) acc]
      simp only [List.foldl_cons, List.foldl_nil, List.length_append,
        List.length_singleton, digitStep, digitVal_ofNat (Nat.mod_lt n (by omega)),
        Option.getD_some]
      rw [pow_succ]
      have hx : (acc * 10 ^ (natDigits (n / 10)).length + n / 10) * 10 + n % 10 =
          acc * (10 ^ (natDigits (n / 10)).length * 10) + (n / 10 * 10 + n % 10) := by
        ring
      rw [hx]
      congr 1
      omega

theorem pyIntDigits_eq_foldl :
    ∀ (ds : List Char) (acc : Nat), (∀ c ∈ ds, (digitVal c).isSome) →
      pyIntDigits acc ds = some (ds.foldl digitStep acc)
  | [], acc, _ => rfl
  | c :: rest, acc, h => by
    have hc : (digitVal c).isSome := h c (List.mem_cons_self _ _)
    obtain ⟨d, hd⟩ := Option.isSome_iff_exists.mp hc
    have hcu : c ≠ '_' := by
      intro heq
      rw [heq] at hd
      cases hd
    rw [pyIntDigits.eq_def]
    dsimp only
    rw [if_neg hcu, hd]
    dsimp only
    have : digitStep acc c = acc * 10 + d := by
      simp [digitStep, hd]
    rw [List.foldl_cons, this]
    exact pyIntDigits_eq_foldl rest (acc * 10 + d)
      (fun x hx => h x (List.mem_cons_of_mem _ hx))

theorem dropWhile_eq_self_of_all {p : Char → Bool} {l : List Char}
    (h : ∀ c ∈ l, p c = false) : l.dropWhile p = l := by
  cases l with
  | nil => rfl
  | cons c t => simp [List.dropWhile_cons, h c (List.mem_cons_self _ _)]

theorem pyStrip_eq_self {s : String} (h : ∀ c ∈ s.data, pySpace c = false) :
    pyStrip s = s := by
  have h1 : s.data.dropWhile pySpace = s.data := dropWhile_eq_self_of_all h
  have h2 : s.data.reverse.dropWhile pySpace = s.data.reverse :=
    dropWhile_eq_self_of_all (fun c hc => h c (List.mem_reverse.mp hc))
  rw [pyStrip, h1, h2, List.reverse_reverse]

theorem pyInt_natRepr (n : Nat) : pyInt (natRepr n) = some (Int.ofNat n) := by
  have hall := natDigits_mem n
  have hstrip : pyStrip (natRepr n) = natRepr n := by
    refine pyStrip_eq_self ?_
    intro c hc
    obtain ⟨d, hd10, rfl⟩ := hall c hc
    exact (digit_char_props hd10).1
  have hdata : (natRepr n).data = natDigits n := rfl
  cases hnd : natDigits n with
  | nil => exact absurd hnd (natDigits_ne_nil n)
  | cons c rest =>
    have hc0 : c ∈ natDigits n := by rw [hnd]; exact List.mem_cons_self _ _
    obtain ⟨d, hd10, hcd⟩ := hall c hc0
    have hprops := digit_char_props hd10
    rw [pyInt, hstrip, hdata, hnd]
    simp only [pyIntCore]
    rw [if_neg (by rw [hcd]; exact hprops.2.1), if_neg (by rw [hcd]; exact hprops.2.2.1)]
    have hdv : digitVal c = some d := by rw [hcd]; exact digitVal_ofNat hd10
    rw [hdv]
    dsimp only
    have hrest : ∀ x ∈ rest, (digitVal x).isSome := by
      intro x hx
      obtain ⟨e, he10, rfl⟩ := hall x (by rw [hnd]; exact List.mem_cons_of_mem _ hx)
      rw [digitVal_ofNat he10]
      rfl
    rw [pyIntDigits_eq_foldl rest d hrest]
    have hfold : (natDigits n).foldl digitStep 0 = n := by
      have := natDigits_foldl n 0
      simpa using this
    rw [hnd, List.foldl_cons] at hfold
    have hstep : digitStep 0 c = d := by simp [digitStep, hdv]
    rw [hstep] at hfold
    rw [hfold]
    rfl

/-! ### Claims C2, C8, C9 -/

/-- Claim C2 (the code contradicts it): in a stream whose first line is the
explicit marker `VERSION 1`, the marker line itself IS passed to the archive
reader — the version-1 loop starts from the line version detection just
consumed, so `DebPackage(filename="VERSION 1")` is attempted.  This evaluates
the model at such a stream and shows the reads begin with the marker line. -/
theorem get_files_v1_marker_read :
    (get_files (fun _ => ["/usr/bin/foo"]) (fun _ => none)
        ["VERSION 1", "/tmp/a.deb"]).map Prod.fst =
      .ok ["VERSION 1", "/tmp/a.deb"] := by
  rfl

/-- Claim C8 (amended): a first line not starting with `"VERSION "` defaults
the protocol version to 1, and a first line `"VERSION <n>"` detects version
`n`; but a line starting with `"VERSION "` whose remainder is not a valid
integer raises an uncaught `ValueError` instead of defaulting (see the
counterexample). -/
theorem detect_version_amended :
    (∀ s : String, pyStartsWith s "VERSION " = false → detect_version s = .ok 1) ∧
    (∀ n : Nat, detect_version ("VERSION " ++ natRepr n) = .ok (Int.ofNat n)) := by
  constructor
  · intro s h
    rw [detect_version, if_neg (by rw [h]; simp)]
  · intro n
    have hsw : pyStartsWith ("VERSION " ++ natRepr n) "VERSION " = true := by
      rw [pyStartsWith, String.data_append]
      exact List.isPrefixOf_iff_prefix.mpr (List.prefix_append _ _)
    have hdrop : ("VERSION " ++ natRepr n).drop 8 = natRepr n := by
      rw [String.drop_eq, String.data_append]
      rw [show (8 : Nat) = "VERSION ".data.length from rfl, List.drop_left]
    rw [detect_version, if_pos hsw, hdrop, pyInt_natRepr]

/-- Witness for `detect_version_amended` at the concrete lines `"hello"` and
`"VERSION 12"`. -/
theorem detect_version_amended_witness :
    detect_version "hello" = .ok 1 ∧
      detect_version ("VERSION " ++ natRepr 12) = .ok (Int.ofNat 12) :=
  ⟨detect_version_amended.1 "hello" (by rfl), detect_version_amended.2 12⟩

/-- Claim C8, counterexample: a first line starting with `"VERSION "` but not
followed by an integer makes the parser fail (`int()` raises `ValueError`)
instead of defaulting to version 1. -/
theorem detect_version_bad_marker_ce :
    get_files (fun _ => []) (fun _ => none) ["VERSION abc"] =
      .error .valueError := by
  rfl

/-- Claim C9: a detected protocol version outside the supported set 1..3 makes
`get_files` report the version and exit with an error before touching the
stream's records or either collaborator (the theorem holds for every archive
oracle, cache oracle and remaining stream). -/
theorem get_files_unsupported_version (arch : String → List String)
    (cache : String → Option (Bool × List String)) (l : String)
    (rest : List String) (v : Int)
    (hd : detect_version (pyStrip l) = .ok v) (hv : ¬(1 ≤ v ∧ v ≤ 3)) :
    get_files arch cache (l :: rest) = .error (.unsupportedVersion v) := by
  rw [get_files]
  simp only [readline]
  rw [hd]
  simp only [if_pos hv]

/-- Witness for `get_files_unsupported_version` at the concrete stream
`["VERSION 4"]`. -/
theorem get_files_unsupported_version_witness :
    get_files (fun _ => []) (fun _ => none) ["VERSION 4"] =
      .error (.unsupportedVersion 4) :=
  get_files_unsupported_version _ _ "VERSION 4" [] 4 (by rfl) (by decide)

/-! ### `get_filesystems` (volume resolution by longest mountpoint)

The mount table (`list_mounted_filesystems`) is passed in as an association
list of mountpoint/`Filesystem` pairs (a Python dict: keys unique, insertion
order preserved), and the zvol alias table (`list_zfs_volumes`) as an
association list from device paths to volume names. -/

/-- The `Filesystem` namedtuple: filesystem type tag and mount source. -/
structure Filesystem where
  type_ : String
  name : String
deriving DecidableEq, Repr

/-- Model of `path.relative_to(mountpoint)` succeeding: the mountpoint's
parts (root included) are a prefix of the path's parts; an empty relative
mountpoint only matches relative paths. -/
def relativeToOk (self tgt : PurePath) : Bool :=
  if tgt.pyParts.isEmpty then self.root == "" else tgt.pyParts.isPrefixOf self.pyParts

/-- The mountpoint-selection loop of `get_filesystems`: scan the mount table,
keeping the first mountpoint below which the path lies and replacing it
whenever a strictly longer (in `parts`) matching mountpoint appears. -/
def bestMountpoint (path : PurePath) :
    List (PurePath × Filesystem) → Option PurePath → Option PurePath
  | [], best => best
  | e :: rest, best =>
    if relativeToOk path e.1 then
      match best with
      | none => bestMountpoint path rest (some e.1)
      | some b =>
        if b.pyParts.length < e.1.pyParts.length
        then bestMountpoint path rest (some e.1)
        else bestMountpoint path rest (some b)
    else bestMountpoint path rest best

/-- Dict lookup `mounted_filesystems[parent_mountpoint]`. -/
def lookupMount (mounts : List (PurePath × Filesystem)) (mp : PurePath) :
    Option Filesystem :=
  (mounts.find? (fun e => e.1 == mp)).map (fun e => e.2)

/-- The per-path loop body of `get_filesystems`: select the owning mount; a
`zfs`-typed mount contributes its source directly, otherwise the source is
treated as a device path and looked up in the zvol alias table (skipping with
a warning when absent).  `error` models the `assert parent_mountpoint is not
None` failing. -/
def gfsGo (mounts : List (PurePath × Filesystem)) (zvols : List (PurePath × String)) :
    List PurePath → Finset String → Except Unit (Finset String)
  | [], acc => .ok acc
  | path :: rest, acc =>
    match bestMountpoint path mounts none with
    | none => .error ()
    | some pmp =>
      match lookupMount mounts pmp with
      | none => .error ()
      | some fs =>
        if fs.type_ = "zfs" then gfsGo mounts zvols rest (acc ∪ {fs.name})
        else
          match (zvols.find? (fun e => e.1 == parsePath fs.name)).map (fun e => e.2) with
          | some vol => gfsGo mounts zvols rest (acc ∪ {vol})
          | none => gfsGo mounts zvols rest acc

/-- Model of `get_filesystems`: the set of dataset names owning the given
paths. -/
def get_filesystems (mounts : List (PurePath × Filesystem))
    (zvols : List (PurePath × String)) (paths : List PurePath) :
    Except Unit (Finset String) :=
  gfsGo mounts zvols paths ∅

/-- Sanity conditions every path parsed from a real path string satisfies:
the root marker is one of the three possible ones and components are
non-empty and slash-free. -/
def PathWellFormed (p : PurePath) : Prop :=
  (p.root = "" ∨ p.root = "/" ∨ p.root = "//") ∧
    ∀ s ∈ p.parts, s ≠ "" ∧ '/' ∉ s.data

instance (p : PurePath) : Decidable (PathWellFormed p) := by
  unfold PathWellFormed
  exact inferInstance

theorem pyParts_inj {p q : PurePath} (hp : PathWellFormed p)
    (hq : PathWellFormed q) (h : p.pyParts = q.pyParts) : p = q := by
  have hslash : ∀ r : String, (r = "/" ∨ r = "//") → '/' ∈ r.data := by
    rintro r (rfl | rfl) <;> decide
  unfold PurePath.pyParts at h
  by_cases hpr : p.root = ""
  · by_cases hqr : q.root = ""
    · rw [if_pos hpr, if_pos hqr] at h
      simp only [List.nil_append] at h
      cases p; cases q
      simp_all
    · rw [if_pos hpr, if_neg hqr] at h
      simp only [List.nil_append, List.cons_append] at h
      exfalso
      have hqmem : q.root ∈ p.parts := by rw [h]; exact List.mem_cons_self _ _
      have := (hp.2 q.root hqmem).2
      rcases hq.1 with h1 | h1 | h1
      · exact hqr h1
      · exact this (hslash _ (Or.inl h1))
      · exact this (hslash _ (Or.inr h1))
  · by_cases hqr : q.root = ""
    · rw [if_neg hpr, if_pos hqr] at h
      simp only [List.nil_append, List.cons_append] at h
      exfalso
      have hpmem : p.root ∈ q.parts := by rw [← h]; exact List.mem_cons_self _ _
      have := (hq.2 p.root hpmem).2
      rcases hp.1 with h1 | h1 | h1
      · exact hpr h1
      · exact this (hslash _ (Or.inl h1))
      · exact this (hslash _ (Or.inr h1))
    · rw [if_neg hpr, if_neg hqr] at h
      simp only [List.cons_append, List.cons.injEq] at h
      cases p; cases q
      simp_all

theorem relativeToOk_isPrefix {path tgt : PurePath} (h : relativeToOk path tgt = true) :
    tgt.pyParts <+: path.pyParts := by
  rw [relativeToOk] at h
  by_cases he : tgt.pyParts.isEmpty
  · rw [if_pos he] at h
    rw [List.isEmpty_iff] at he
    rw [he]
    exact List.nil_prefix
  · rw [if_neg he] at h
    exact List.isPrefixOf_iff_prefix.mp h

theorem bestMountpoint_mem :
    ∀ (l : List (PurePath × Filesystem)) (best : Option PurePath) (path b : PurePath),
      bestMountpoint path l best = some b → best = some b ∨ ∃ fs, (b, fs) ∈ l
  | [], best, path, b, h => Or.inl h
  | e :: rest, best, path, b, h => by
    simp only [bestMountpoint] at h
    by_cases hm : relativeToOk path e.1 = true
    · rw [if_pos hm] at h
      cases best with
      | none =>
        dsimp only at h
        rcases bestMountpoint_mem rest _ path b h with h1 | ⟨fs, hfs⟩
        · cases h1
          exact Or.inr ⟨e.2, List.mem_cons_self _ _⟩
        · exact Or.inr ⟨fs, List.mem_cons_of_mem _ hfs⟩
      | some b0 =>
        dsimp only at h
        by_cases hlt : b0.pyParts.length < e.1.pyParts.length
        · rw [if_pos hlt] at h
          rcases bestMountpoint_mem rest _ path b h with h1 | ⟨fs, hfs⟩
          · cases h1
            exact Or.inr ⟨e.2, List.mem_cons_self _ _⟩
          · exact Or.inr ⟨fs, List.mem_cons_of_mem _ hfs⟩
        · rw [if_neg hlt] at h
          rcases bestMountpoint_mem rest _ path b h with h1 | ⟨fs, hfs⟩
          · exact Or.inl h1
          · exact Or.inr ⟨fs, List.mem_cons_of_mem _ hfs⟩
    · rw [if_neg hm] at h
      rcases bestMountpoint_mem rest _ path b h with h1 | ⟨fs, hfs⟩
      · exact Or.inl h1
      · exact Or.inr ⟨fs, List.mem_cons_of_mem _ hfs⟩

theorem bestMountpoint_matches :
    ∀ (l : List (PurePath × Filesystem)) (best : Option PurePath) (path b : PurePath),
      (∀ x, best = some x → relativeToOk path x = true) →
      bestMountpoint path l best = some b → relativeToOk path b = true
  | [], best, path, b, hb, h => hb b h
  | e :: rest, best, path, b, hb, h => by
    simp only [bestMountpoint] at h
    by_cases hm : relativeToOk path e.1 = true
    · rw [if_pos hm] at h
      cases best with
      | none =>
        dsimp only at h
        exact bestMountpoint_matches rest _ path b
          (by rintro x ⟨rfl⟩; exact hm) h
      | some b0 =>
        dsimp only at h
        by_cases hlt : b0.pyParts.length < e.1.pyParts.length
        · rw [if_pos hlt] at h
          exact bestMountpoint_matches rest _ path b
            (by rintro x ⟨rfl⟩; exact hm) h
        · rw [if_neg hlt] at h
          exact bestMountpoint_matches rest _ path b
            (by rintro x ⟨rfl⟩; exact hb b0 rfl) h
    · rw [if_neg hm] at h
      exact bestMountpoint_matches rest _ path b hb h

theorem bestMountpoint_ge :
    ∀ (l : List (PurePath × Filesystem)) (best : Option PurePath) (path b : PurePath),
      bestMountpoint path l best = some b →
      (∀ e ∈ l, relativeToOk path e.1 = true →
        e.1.pyParts.length ≤ b.pyParts.length) ∧
      (∀ x, best = some x → x.pyParts.length ≤ b.pyParts.length)
  | [], best, path, b, h => by
    refine ⟨?_, ?_⟩
    · intro e he
      cases he
    · rintro x hx
      cases h
      cases hx
      exact Nat.le_refl _
  | e :: rest, best, path, b, h => by
    simp only [bestMountpoint] at h
    by_cases hm : relativeToOk path e.1 = true
    · rw [if_pos hm] at h
      cases best with
      | none =>
        dsimp only at h
        have ih := bestMountpoint_ge rest _ path b h
        refine ⟨?_, by rintro x ⟨⟩⟩
        intro e' he' hm'
        rcases List.mem_cons.mp he' with rfl | he''
        · exact ih.2 e'.1 rfl
        · exact ih.1 e' he'' hm'
      | some b0 =>
        dsimp only at h
        by_cases hlt : b0.pyParts.length < e.1.pyParts.length
        · rw [if_pos hlt] at h
          have ih := bestMountpoint_ge rest _ path b h
          constructor
          · intro e' he' hm'
            rcases List.mem_cons.mp he' with rfl | he''
            · exact ih.2 e'.1 rfl
            · exact ih.1 e' he'' hm'
          · rintro x ⟨rfl⟩
            exact Nat.le_trans (Nat.le_of_lt hlt) (ih.2 e.1 rfl)
        · rw [if_neg hlt] at h
          have ih := bestMountpoint_ge rest _ path b h
          constructor
          · intro e' he' hm'
            rcases List.mem_cons.mp he' with rfl | he''
            · exact Nat.le_trans (Nat.le_of_not_lt hlt) (ih.2 b0 rfl)
            · exact ih.1 e' he'' hm'
          · intro x hx
            cases hx
            exact ih.2 _ rfl
    · rw [if_neg hm] at h
      have ih := bestMountpoint_ge rest _ path b h
      constructor
      · intro e' he' hm'
        rcases List.mem_cons.mp he' with rfl | he''
        · exact absurd hm' hm
        · exact ih.1 e' he'' hm'
      · exact ih.2

theorem bestMountpoint_isSome :
    ∀ (l : List (PurePath × Filesystem)) (best : Option PurePath) (path : PurePath),
      (best ≠ none ∨ ∃ e ∈ l, relativeToOk path e.1 = true) →
      bestMountpoint path l best ≠ none
  | [], best, path, h => by
    rcases h with h | ⟨e, he, _⟩
    · exact h
    · cases he
  | e :: rest, best, path, h => by
    simp only [bestMountpoint]
    by_cases hm : relativeToOk path e.1 = true
    · rw [if_pos hm]
      cases best with
      | none =>
        dsimp only
        exact bestMountpoint_isSome rest _ path (Or.inl (by simp))
      | some b0 =>
        dsimp only
        by_cases hlt : b0.pyParts.length < e.1.pyParts.length
        · rw [if_pos hlt]
          exact bestMountpoint_isSome rest _ path (Or.inl (by simp))
        · rw [if_neg hlt]
          exact bestMountpoint_isSome rest _ path (Or.inl (by simp))
    · rw [if_neg hm]
      refine bestMountpoint_isSome rest _ path ?_
      rcases h with h | ⟨e', he', hm'⟩
      · exact Or.inl h
      · rcases List.mem_cons.mp he' with rfl | he''
        · exact absurd hm' hm
        · exact Or.inr ⟨e', he'', hm'⟩

theorem find?_eq_of_nodup :
    ∀ (l : List (PurePath × Filesystem)) (mp : PurePath) (fs : Filesystem),
      (l.map Prod.fst).Nodup → (mp, fs) ∈ l →
      l.find? (fun e => e.1 == mp) = some (mp, fs)
  | [], mp, fs, _, hmem => by cases hmem
  | e :: rest, mp, fs, hnd, hmem => by
    rw [List.map_cons, List.nodup_cons] at hnd
    rcases List.mem_cons.mp hmem with rfl | hmem'
    · simp [List.find?]
    · have hne : (e.1 == mp) = false := by
        rw [beq_eq_false_iff_ne]
        intro heq
        exact hnd.1 (heq ▸ List.mem_map_of_mem Prod.fst hmem')
      rw [List.find?, hne]
      exact find?_eq_of_nodup rest mp fs hnd.2 hmem'

/-- Claim C6: among the mount entries whose mountpoint is a path ancestor-or-
equal of the path, the resolver selects the one with the most path components,
and when that entry's filesystem type is `"zfs"` the resolved volume set for
the path is exactly that entry's source string. -/
theorem get_filesystems_longest_zfs
    (mounts : List (PurePath × Filesystem)) (zvols : List (PurePath × String))
    (path mp : PurePath) (src : String)
    (hnodup : (mounts.map Prod.fst).Nodup)
    (hwf : ∀ e ∈ mounts, PathWellFormed e.1)
    (hmem : (mp, ⟨"zfs", src⟩) ∈ mounts)
    (hpre : relativeToOk path mp = true)
    (hmax : ∀ e ∈ mounts, relativeToOk path e.1 = true →
      e.1.pyParts.length ≤ mp.pyParts.length) :
    get_filesystems mounts zvols [path] = .ok {src} := by
  have hsome : bestMountpoint path mounts none ≠ none :=
    bestMountpoint_isSome mounts none path (Or.inr ⟨(mp, ⟨"zfs", src⟩), hmem, hpre⟩)
  cases hbest : bestMountpoint path mounts none with
  | none => exact absurd hbest hsome
  | some b =>
    have hbmem := bestMountpoint_mem mounts none path b hbest
    have hbmatch := bestMountpoint_matches mounts none path b
      (by rintro x ⟨⟩) hbest
    have hbge := (bestMountpoint_ge mounts none path b hbest).1
    rcases hbmem with h1 | ⟨fs, hfs⟩
    · cases h1
    · have hble : b.pyParts.length ≤ mp.pyParts.length :=
        hmax (b, fs) hfs hbmatch
      have hbge' : mp.pyParts.length ≤ b.pyParts.length :=
        hbge (mp, ⟨"zfs", src⟩) hmem hpre
      have hlen : b.pyParts.length = mp.pyParts.length := Nat.le_antisymm hble hbge'
      have hbpre := relativeToOk_isPrefix hbmatch
      have hmppre := relativeToOk_isPrefix hpre
      have heqparts : b.pyParts = mp.pyParts :=
        (List.prefix_of_prefix_length_le hbpre hmppre hble).eq_of_length hlen
      have hbeq : b = mp :=
        pyParts_inj (hwf (b, fs) hfs) (hwf (mp, ⟨"zfs", src⟩) hmem) heqparts
      subst hbeq
      rw [get_filesystems]
      simp only [gfsGo, hbest, lookupMount,
        find?_eq_of_nodup mounts _ _ hnodup hmem, Option.map_some]
      simp [gfsGo]

/-- Witness for `get_filesystems_longest_zfs` at a concrete two-entry mount
table. -/
theorem get_filesystems_longest_zfs_witness :
    get_filesystems
      [(⟨"/", []⟩, ⟨"zfs", "tank"⟩), (⟨"/", ["usr"]⟩, ⟨"zfs", "tank/usr"⟩)]
      [] [⟨"/", ["usr", "bin"]⟩] = .ok {"tank/usr"} :=
  get_filesystems_longest_zfs
    [(⟨"/", []⟩, ⟨"zfs", "tank"⟩), (⟨"/", ["usr"]⟩, ⟨"zfs", "tank/usr"⟩)]
    [] ⟨"/", ["usr", "bin"]⟩ ⟨"/", ["usr"]⟩ "tank/usr"
    (by decide)
    (by decide)
    (by decide)
    (by decide)
    (by decide)

/-! ### The `com.sun:auto-snapshot` policy filter (from `main`) -/

/-- A ZFS property value after `get_dataset_props` coercion: booleans for
`on`/`true`/`off`/`false`, raw text otherwise. -/
inductive PropValue where
  | b (v : Bool)
  | s (v : String)
deriving DecidableEq, Repr

/-- Python truthiness of a property value (`if properties.get(...)`): a bool
is itself, a string is truthy iff non-empty. -/
def pythonTruthy : PropValue → Bool
  | .b v => v
  | .s v => !(v == "")

/-- Model of `dict.get(key, default)`. -/
def pyDictGet (m : List (String × PropValue)) (k : String) (dflt : PropValue) :
    PropValue :=
  match m.find? (fun e => e.1 == k) with
  | some e => e.2
  | none => dflt

/-- The snapshot-policy filter from `main`: with `respect_auto_snapshot` set,
keep the filesystems whose `com.sun:auto-snapshot` property (default `True`
when absent) is truthy; with `--ignore-auto-snapshot`, keep everything.
`props fs` is the property map `get_dataset_props(fs)`. -/
def enabled_filesystems (respect : Bool)
    (props : String → List (String × PropValue)) (filesystems : List String) :
    Finset String :=
  if respect then
    (filesystems.filter
      (fun fs => pythonTruthy (pyDictGet (props fs) "com.sun:auto-snapshot" (.b true)))).toFinset
  else filesystems.toFinset

/-- Spec-side opt-out test, phrased as the claim states it: the property map
contains the opt-out property with a false-like (falsy) value. -/
def optOutByProp (m : List (String × PropValue)) : Bool :=
  match m.find? (fun e => e.1 == "com.sun:auto-snapshot") with
  | some e => !pythonTruthy e.2
  | none => false

/-- Claim C7: with opt-out respect enabled (the default) a volume is excluded
iff its property map contains `com.sun:auto-snapshot` with a false-like value
(so volumes lacking the key are included), and with `--ignore-auto-snapshot`
every resolved volume is included unconditionally. -/
theorem enabled_filesystems_spec :
    (∀ (props : String → List (String × PropValue)) (fss : List String)
        (fs : String),
      fs ∈ enabled_filesystems true props fss ↔
        fs ∈ fss ∧ optOutByProp (props fs) = false) ∧
    (∀ (props : String → List (String × PropValue)) (fss : List String),
      enabled_filesystems false props fss = fss.toFinset) := by
  constructor
  · intro props fss fs
    rw [enabled_filesystems, if_pos rfl, List.mem_toFinset, List.mem_filter]
    constructor
    · rintro ⟨hmem, htruthy⟩
      refine ⟨hmem, ?_⟩
      rw [optOutByProp]
      rw [pyDictGet] at htruthy
      cases hf : (props fs).find? (fun e => e.1 == "com.sun:auto-snapshot") with
      | none => rfl
      | some e =>
        rw [hf] at htruthy
        simp [htruthy]
    · rintro ⟨hmem, hopt⟩
      refine ⟨hmem, ?_⟩
      rw [optOutByProp] at hopt
      rw [pyDictGet]
      cases hf : (props fs).find? (fun e => e.1 == "com.sun:auto-snapshot") with
      | none => rfl
      | some e =>
        rw [hf] at hopt
        simpa using hopt
  · intro props fss
    rw [enabled_filesystems, if_neg (by simp)]

/-! ### Snapshot naming (`main`) and timestamp parsing (`list_old`)

The namer formats `datetime.utcnow()` with `SNAPSHOT_TIMESTAMP_FORMAT`; the
matcher in `list_old` re-parses the portion after the prefix with
`datetime.strptime` against a family of progressively truncated formats.
`Timestamp` models a `datetime` by its broken-down fields; `strptime` models
Python's `_strptime` for the directives this format family uses (`%Y` is
exactly four digits, the two-digit directives accept one- or two-digit values
within their regex classes, alternatives tried in the regex's order), followed
by the `datetime` constructor's range validation. -/

/-- Broken-down model of `datetime.datetime`. -/
structure Timestamp where
  year : Nat
  month : Nat
  day : Nat
  hour : Nat
  minute : Nat
  second : Nat
  microsecond : Nat
deriving DecidableEq, Repr

/-- Truncation to whole seconds (what formatting with a second-precision
format loses). -/
def Timestamp.truncate (t : Timestamp) : Timestamp := { t with microsecond := 0 }

/-- Gregorian leap-year rule. -/
def isLeap (y : Nat) : Bool := (y % 4 == 0 && !(y % 100 == 0)) || y % 400 == 0

/-- Days in a month. -/
def daysInMonth (y m : Nat) : Nat :=
  if m = 2 then (if isLeap y then 29 else 28)
  else if m = 4 ∨ m = 6 ∨ m = 9 ∨ m = 11 then 30 else 31

/-- The `datetime` constructor's validity invariant (year 1..9999 as in
Python's `MINYEAR`/`MAXYEAR`). -/
def Timestamp.Valid (t : Timestamp) : Prop :=
  1 ≤ t.year ∧ t.year ≤ 9999 ∧ 1 ≤ t.month ∧ t.month ≤ 12 ∧
    1 ≤ t.day ∧ t.day ≤ daysInMonth t.year t.month ∧
    t.hour ≤ 23 ∧ t.minute ≤ 59 ∧ t.second ≤ 59 ∧ t.microsecond ≤ 999999

instance (t : Timestamp) : Decidable t.Valid := by
  unfold Timestamp.Valid
  exact inferInstance

/-- The constants from the source. -/
def SNAPSHOT_PREFIX : String := "zfs-apt-snap"

def SNAPSHOT_TIMESTAMP_FORMAT : String := "%Y-%m-%dT%H%M%S"

/-- The `strftime`/`strptime` directives the snapshot format family uses. -/
inductive FmtDir where
  | dY
  | dm
  | dd
  | dH
  | dM
  | dS
deriving DecidableEq, Repr

/-- A tokenized format string: directives and literal characters. -/
inductive FmtToken where
  | dir (d : FmtDir)
  | lit (c : Char)
deriving DecidableEq, Repr

/-- Tokenize a format string; `none` models the `ValueError` Python raises on
a directive outside the supported set. -/
def tokenize : List Char → Option (List FmtToken)
  | [] => some []
  | '%' :: c :: rest =>
    let d? : Option FmtDir :=
      if c = 'Y' then some .dY
      else if c = 'm' then some .dm
      else if c = 'd' then some .dd
      else if c = 'H' then some .dH
      else if c = 'M' then some .dM
      else if c = 'S' then some .dS
      else none
    match d? with
    | some d => (tokenize rest).map (fun ts => .dir d :: ts)
    | none => none
  | '%' :: [] => none
  | c :: rest => (tokenize rest).map (fun ts => .lit c :: ts)

/-- Zero-padded two-digit rendering (the values formatted are `datetime`
fields, always in 0..99). -/
def pad2 (n : Nat) : List Char :=
  [Char.ofNat (48 + n / 10 % 10), Char.ofNat (48 + n % 10)]

/-- Zero-padded four-digit rendering (years are 1..9999). -/
def pad4 (n : Nat) : List Char :=
  [Char.ofNat (48 + n / 1000 % 10), Char.ofNat (48 + n / 100 % 10),
    Char.ofNat (48 + n / 10 % 10), Char.ofNat (48 + n % 10)]

/-- Model of `strftime` over a tokenized format. -/
def strftimeTok : List FmtToken → Timestamp → List Char
  | [], _ => []
  | .dir .dY :: ts, t => pad4 t.year ++ strftimeTok ts t
  | .dir .dm :: ts, t => pad2 t.month ++ strftimeTok ts t
  | .dir .dd :: ts, t => pad2 t.day ++ strftimeTok ts t
  | .dir .dH :: ts, t => pad2 t.hour ++ strftimeTok ts t
  | .dir .dM :: ts, t => pad2 t.minute ++ strftimeTok ts t
  | .dir .dS :: ts, t => pad2 t.second ++ strftimeTok ts t
  | .lit c :: ts, t => c :: strftimeTok ts t

/-- The token list of `SNAPSHOT_TIMESTAMP_FORMAT`. -/
def snapshotFormatTokens : List FmtToken :=
  [.dir .dY, .lit '-', .dir .dm, .lit '-', .dir .dd, .lit 'T',
    .dir .dH, .dir .dM, .dir .dS]

theorem tokenize_snapshot_format :
    tokenize SNAPSHOT_TIMESTAMP_FORMAT.data = some snapshotFormatTokens := rfl

/-- The snapshot full name built in `main`:
`"{}@{}".format(fs, "{}_{}".format(SNAPSHOT_PREFIX, timestamp))`. -/
def name_for (vol : String) (t : Timestamp) : String :=
  vol ++ "@" ++ SNAPSHOT_PREFIX ++ "_" ++ ⟨strftimeTok snapshotFormatTokens t⟩

/-- The fields collected while matching a format. -/
structure ParsedFields where
  fY : Option Nat
  fm : Option Nat
  fd : Option Nat
  fH : Option Nat
  fM : Option Nat
  fS : Option Nat
deriving DecidableEq, Repr

/-- The empty field set. -/
def ParsedFields.empty : ParsedFields := ⟨none, none, none, none, none, none⟩

/-- Record a matched directive value. -/
def setField : FmtDir → Nat → ParsedFields → ParsedFields
  | .dY, v, f => { f with fY := some v }
  | .dm, v, f => { f with fm := some v }
  | .dd, v, f => { f with fd := some v }
  | .dH, v, f => { f with fH := some v }
  | .dM, v, f => { f with fM := some v }
  | .dS, v, f => { f with fS := some v }

/-- The two-digit character classes of Python's `_strptime` regexes, by
directive (the union of the two-character alternatives, which are mutually
exclusive on their first digit): `%m` is `1[0-2]|0[1-9]`, `%d` is
`3[01]|[12]\d|0[1-9]`, `%H` is `2[0-3]|[0-1]\d`, `%M` is `[0-5]\d`, `%S` is
`6[0-1]|[0-5]\d`. -/
def dirTwoOk : FmtDir → Nat → Nat → Bool
  | .dY, _, _ => false
  | .dm, da, db => (da == 1 && decide (db ≤ 2)) || (da == 0 && decide (1 ≤ db))
  | .dd, da, db =>
    (da == 3 && decide (db ≤ 1)) || (decide (1 ≤ da) && decide (da ≤ 2)) ||
      (da == 0 && decide (1 ≤ db))
  | .dH, da, db => (da == 2 && decide (db ≤ 3)) || decide (da ≤ 1)
  | .dM, da, _ => decide (da ≤ 5)
  | .dS, da, db => (da == 6 && decide (db ≤ 1)) || decide (da ≤ 5)

/-- The one-digit fallback classes (the trailing single-digit alternative of
each regex): `[1-9]` for `%m`/`%d`, `\d` for `%H`/`%M`/`%S`. -/
def dirOneOk : FmtDir → Nat → Bool
  | .dY, _ => false
  | .dm, da => decide (1 ≤ da)
  | .dd, da => decide (1 ≤ da)
  | .dH, _ => true
  | .dM, _ => true
  | .dS, _ => true

/-- Match a token list against an input, collecting fields.  `%Y` consumes
exactly four digits; the other directives try their two-digit alternatives
first and fall back to the one-digit alternative, with backtracking into the
rest of the format — the same answers, in the same order, as Python's
compiled regex.  The whole input must be consumed (`unconverted data
remains`). -/
def matchToks : List FmtToken → List Char → ParsedFields → Option ParsedFields
  | [], [], f => some f
  | [], _ :: _, _ => none
  | .lit _ :: _, [], _ => none
  | .lit c :: ts, c2 :: rest, f =>
    if c2 = c then matchToks ts rest f else none
  | .dir .dY :: ts, cs, f =>
    match cs with
    | a :: b :: c :: d :: rest =>
      match digitVal a, digitVal b, digitVal c, digitVal d with
      | some da, some db, some dc, some dd =>
        matchToks ts rest (setField .dY (da * 1000 + db * 100 + dc * 10 + dd) f)
      | _, _, _, _ => none
    | _ => none
  | .dir d :: ts, cs, f =>
    let two : Option (Nat × List Char) :=
      match cs with
      | a :: b :: rest =>
        match digitVal a, digitVal b with
        | some da, some db =>
          if dirTwoOk d da db then some (da * 10 + db, rest) else none
        | _, _ => none
      | _ => none
    let one : Option (Nat × List Char) :=
      match cs with
      | a :: rest =>
        match digitVal a with
        | some da => if dirOneOk d da then some (da, rest) else none
        | none => none
      | [] => none
    match two with
    | some (v, rest) =>
      match matchToks ts rest (setField d v f) with
      | some r => some r
      | none =>
        match one with
        | some (v1, r1) => matchToks ts r1 (setField d v1 f)
        | none => none
    | none =>
      match one with
      | some (v1, r1) => matchToks ts r1 (setField d v1 f)
      | none => none

/-- Model of `datetime.strptime(s, fmt)` for this format family: match, fill
the missing fields with Python's defaults (1900-01-01 00:00:00), and apply
the `datetime` constructor's validation (its `ValueError` and the regex's
are indistinguishable to `list_old`, which catches both). -/
def strptime (fmt : String) (s : String) : Option Timestamp :=
  match tokenize fmt.data with
  | none => none
  | some toks =>
    match matchToks toks s.data ParsedFields.empty with
    | none => none
    | some f =>
      let t : Timestamp :=
        ⟨f.fY.getD 1900, f.fm.getD 1, f.fd.getD 1,
          f.fH.getD 0, f.fM.getD 0, f.fS.getD 0, 0⟩
      if t.Valid then some t else none

/-- Index of the last `'%'` in a character list (`str.rfind`). -/
def rfindPercent (cs : List Char) : Option Nat :=
  match cs.reverse.findIdx? (fun c => c = '%') with
  | some i => some (cs.length - 1 - i)
  | none => none

/-- One truncation step of `drop_tokens`:
`timestamp_format[:timestamp_format.rfind("%")]` (Python slices with `-1`
when `'%'` is absent, dropping the last character). -/
def dropTokensStep (fmt : String) : String :=
  match rfindPercent fmt.data with
  | some i => ⟨fmt.data.take i⟩
  | none => ⟨fmt.data.dropLast⟩

/-- The `drop_tokens` generator from `list_old`: yield the format, then keep
truncating at the last `'%'` while non-empty.  The fuel argument only bounds
the loop; every step strictly shortens the string, so `length + 1` steps are
enough. -/
def dropTokensFuel : Nat → String → List String
  | 0, _ => []
  | fuel + 1, fmt =>
    if fmt.data = [] then [] else fmt :: dropTokensFuel fuel (dropTokensStep fmt)

/-- `drop_tokens` as used by `list_old`. -/
def drop_tokens (fmt : String) : List String := dropTokensFuel (fmt.data.length + 1) fmt

/-- `SNAPSHOT_TIMESTAMP_FORMAT.replace("T", repl)` for the two variants
`list_old` builds (the separator removed, and replaced by a dash). -/
def replaceT (s : String) (repl : List Char) : String :=
  ⟨s.data.foldr (fun c acc => if c = 'T' then repl ++ acc else c :: acc) []⟩

/-- The ordered format-fallback family built at the top of `list_old`. -/
def timestamp_formats : List String :=
  drop_tokens SNAPSHOT_TIMESTAMP_FORMAT ++
    (if 'T' ∈ SNAPSHOT_TIMESTAMP_FORMAT.data then
      drop_tokens (replaceT SNAPSHOT_TIMESTAMP_FORMAT []) ++
        drop_tokens (replaceT SNAPSHOT_TIMESTAMP_FORMAT ['-'])
    else [])

/-- The `for timestamp_format in timestamp_formats: try ... break` loop. -/
def firstParse : List String → String → Option Timestamp
  | [], _ => none
  | fmt :: rest, s =>
    match strptime fmt s with
    | some t => some t
    | none => firstParse rest s

/-- Failure modes of the timestamp matcher in `list_old`: `indexError` models
`rsplit(b"@", 1)[1]` on a name without `"@"`, `unparseable` the
`sys.exit(1)` after the whole format family fails. -/
inductive ParseErr where
  | indexError
  | unparseable
deriving DecidableEq, Repr

/-- The characters after the last `'@'`, or `none` when there is none
(`rsplit(b"@", 1)[1]`). -/
def afterLastAt (cs : List Char) : Option (List Char) :=
  cs.foldl (fun acc c => if c = '@' then some [] else acc.map (fun xs => xs ++ [c])) none

/-- The per-snapshot timestamp extraction and parse of `list_old`: take the
name after the last `"@"`, drop the prefix plus one separator character, and
try the format family in order. -/
def parse_snapshot_timestamp (full : String) : Except ParseErr Timestamp :=
  match afterLastAt full.data with
  | none => .error .indexError
  | some bare =>
    match firstParse timestamp_formats ⟨bare.drop (SNAPSHOT_PREFIX.length + 1)⟩ with
    | some t => .ok t
    | none => .error .unparseable

/-! ### Staleness (`list_old`)

`datetime` values are compared on the microsecond timeline; `toEpochMicros`
is the order-isomorphism from broken-down fields to that timeline, under
which `datetime.now() - timedelta(days=period)` is `now - period * 86400000000`
microseconds. -/

/-- Days from 1970-01-01 of a civil date (standard era-based formula). -/
def daysFromCivil (y m d : Nat) : Int :=
  let yAdj : Nat := if m ≤ 2 then y - 1 else y
  let era : Nat := yAdj / 400
  let yoe : Nat := yAdj % 400
  let mp : Nat := (m + 9) % 12
  let doy : Nat := (153 * mp + 2) / 5 + (d - 1)
  let doe : Nat := yoe * 365 + yoe / 4 - yoe / 100 + doy
  (era : Int) * 146097 + (doe : Int) - 719468

/-- Microseconds since 1970-01-01 00:00:00. -/
def toEpochMicros (t : Timestamp) : Int :=
  daysFromCivil t.year t.month t.day * 86400000000 +
    ((t.hour * 3600 + t.minute * 60 + t.second : Nat) : Int) * 1000000 +
    (t.microsecond : Int)

/-- The loop of `list_old` over the tool's snapshots (names as returned by
`list_apt_snapshots`): parse each timestamp (an unparseable one aborts the
run), keeping those strictly older than `now - timedelta(days=period)`. -/
def list_old_model (nowUs : Int) (period : Int) :
    List String → Except ParseErr (List String)
  | [] => .ok []
  | s :: rest =>
    match parse_snapshot_timestamp s with
    | .error e => .error e
    | .ok ts =>
      match list_old_model nowUs period rest with
      | .error e => .error e
      | .ok tail =>
        if toEpochMicros ts < nowUs - period * 86400000000
        then .ok (s :: tail) else .ok tail

/-! ### Claim C4: the snapshot-name round trip -/

theorem daysInMonth_le (y m : Nat) : daysInMonth y m ≤ 31 := by
  unfold daysInMonth
  split
  · split <;> omega
  · split <;> omega

theorem digit_char_ne_at {k : Nat} (h : k < 10) : Char.ofNat (48 + k) ≠ '@' := by
  interval_cases k <;> decide

theorem mem_pad2_ne_at {n : Nat} {c : Char} (h : c ∈ pad2 n) : c ≠ '@' := by
  simp only [pad2, List.mem_cons, List.not_mem_nil, or_false] at h
  rcases h with rfl | rfl
  · exact digit_char_ne_at (Nat.mod_lt _ (by omega))
  · exact digit_char_ne_at (Nat.mod_lt _ (by omega))

theorem mem_pad4_ne_at {n : Nat} {c : Char} (h : c ∈ pad4 n) : c ≠ '@' := by
  simp only [pad4, List.mem_cons, List.not_mem_nil, or_false] at h
  rcases h with rfl | rfl | rfl | rfl <;>
    exact digit_char_ne_at (Nat.mod_lt _ (by omega))

theorem strftime_snapshot_no_at (t : Timestamp) :
    '@' ∉ strftimeTok snapshotFormatTokens t := by
  intro hmem
  simp only [snapshotFormatTokens, strftimeTok, List.append_nil,
    List.mem_append, List.mem_cons] at hmem
  rcases hmem with h | h
  · exact mem_pad4_ne_at h rfl
  rcases h with h | h
  · cases h
  rcases h with h | h
  · exact mem_pad2_ne_at h rfl
  rcases h with h | h
  · cases h
  rcases h with h | h
  · exact mem_pad2_ne_at h rfl
  rcases h with h | h
  · cases h
  rcases h with h | h
  · exact mem_pad2_ne_at h rfl
  rcases h with h | h
  · exact mem_pad2_ne_at h rfl
  · exact mem_pad2_ne_at h rfl

theorem afterLastAt_no_at {s : List Char} (h : '@' ∉ s) :
    ∀ acc : List Char,
      s.foldl (fun acc c => if c = '@' then some [] else acc.map (fun xs => xs ++ [c]))
        (some acc) = some (acc ++ s) := by
  induction s with
  | nil => simp
  | cons c rest ih =>
    intro acc
    have hc : ¬(c = '@') := fun heq => h (heq ▸ List.mem_cons_self _ _)
    rw [List.foldl_cons]
    rw [if_neg hc]
    rw [show Option.map (fun xs => xs ++ [c]) (some acc) = some (acc ++ [c]) from rfl]
    rw [ih (fun hm => h (List.mem_cons_of_mem _ hm)) (acc ++ [c])]
    simp

theorem afterLastAt_append (a s : List Char) (h : '@' ∉ s) :
    afterLastAt (a ++ '@' :: s) = some s := by
  rw [afterLastAt, List.foldl_append, List.foldl_cons]
  simp only [if_pos rfl]
  simpa using afterLastAt_no_at h []

theorem matchToks_stepLit {c : Char} {ts : List FmtToken} {rest : List Char}
    {f r : ParsedFields} (hc : matchToks ts rest f = some r) :
    matchToks (.lit c :: ts) (c :: rest) f = some r := by
  simp only [matchToks, if_pos rfl]
  exact hc

theorem matchToks_stepY {y : Nat} (hy : y ≤ 9999) {ts : List FmtToken}
    {rest : List Char} {f r : ParsedFields}
    (hc : matchToks ts rest (setField .dY y f) = some r) :
    matchToks (.dir .dY :: ts) (pad4 y ++ rest) f = some r := by
  have h1 : digitVal (Char.ofNat (48 + y / 1000 % 10)) = some (y / 1000 % 10) :=
    digitVal_ofNat (Nat.mod_lt _ (by omega))
  have h2 : digitVal (Char.ofNat (48 + y / 100 % 10)) = some (y / 100 % 10) :=
    digitVal_ofNat (Nat.mod_lt _ (by omega))
  have h3 : digitVal (Char.ofNat (48 + y / 10 % 10)) = some (y / 10 % 10) :=
    digitVal_ofNat (Nat.mod_lt _ (by omega))
  have h4 : digitVal (Char.ofNat (48 + y % 10)) = some (y % 10) :=
    digitVal_ofNat (Nat.mod_lt _ (by omega))
  simp only [pad4, List.cons_append, matchToks, h1, h2, h3, h4]
  have hval : y / 1000 % 10 * 1000 + y / 100 % 10 * 100 + y / 10 % 10 * 10 + y % 10 = y := by
    omega
  rw [hval]
  exact hc

theorem matchToks_step2 {d : FmtDir} (hd : d ≠ .dY) {v : Nat} (hv : v ≤ 99)
    (hok : dirTwoOk d (v / 10) (v % 10) = true) {ts : List FmtToken}
    {rest : List Char} {f r : ParsedFields}
    (hc : matchToks ts rest (setField d v f) = some r) :
    matchToks (.dir d :: ts) (pad2 v ++ rest) f = some r := by
  have h1 : digitVal (Char.ofNat (48 + v / 10 % 10)) = some (v / 10) := by
    rw [digitVal_ofNat (show v / 10 % 10 < 10 from Nat.mod_lt _ (by omega))]
    exact congrArg some (by omega)
  have h2 : digitVal (Char.ofNat (48 + v % 10)) = some (v % 10) :=
    digitVal_ofNat (Nat.mod_lt _ (by omega))
  have hval : v / 10 * 10 + v % 10 = v := by omega
  cases d with
  | dY => exact absurd rfl hd
  | dm =>
    simp only [pad2, List.cons_append, List.nil_append, matchToks, h1, h2, hok,
      if_true, hval, hc]
  | dd =>
    simp only [pad2, List.cons_append, List.nil_append, matchToks, h1, h2, hok,
      if_true, hval, hc]
  | dH =>
    simp only [pad2, List.cons_append, List.nil_append, matchToks, h1, h2, hok,
      if_true, hval, hc]
  | dM =>
    simp only [pad2, List.cons_append, List.nil_append, matchToks, h1, h2, hok,
      if_true, hval, hc]
  | dS =>
    simp only [pad2, List.cons_append, List.nil_append, matchToks, h1, h2, hok,
      if_true, hval, hc]

theorem matchToks_canonical (t : Timestamp) (h : t.Valid) :
    matchToks snapshotFormatTokens (strftimeTok snapshotFormatTokens t)
      ParsedFields.empty =
    some ⟨some t.year, some t.month, some t.day,
      some t.hour, some t.minute, some t.second⟩ := by
  obtain ⟨hy1, hy2, hm1, hm2, hd1, hd2, hH, hM, hS, _⟩ := h
  have hd31 : t.day ≤ 31 := Nat.le_trans hd2 (daysInMonth_le _ _)
  have hokm : dirTwoOk .dm (t.month / 10) (t.month % 10) = true := by
    simp only [dirTwoOk, Bool.or_eq_true, Bool.and_eq_true, beq_iff_eq,
      decide_eq_true_eq]
    omega
  have hokd : dirTwoOk .dd (t.day / 10) (t.day % 10) = true := by
    simp only [dirTwoOk, Bool.or_eq_true, Bool.and_eq_true, beq_iff_eq,
      decide_eq_true_eq]
    omega
  have hokH : dirTwoOk .dH (t.hour / 10) (t.hour % 10) = true := by
    simp only [dirTwoOk, Bool.or_eq_true, Bool.and_eq_true, beq_iff_eq,
      decide_eq_true_eq]
    omega
  have hokM : dirTwoOk .dM (t.minute / 10) (t.minute % 10) = true := by
    simp only [dirTwoOk, decide_eq_true_eq]
    omega
  have hokS : dirTwoOk .dS (t.second / 10) (t.second % 10) = true := by
    simp only [dirTwoOk, Bool.or_eq_true, Bool.and_eq_true, beq_iff_eq,
      decide_eq_true_eq]
    omega
  show matchToks (.dir .dY :: _) _ _ = _
  simp only [snapshotFormatTokens, strftimeTok, List.append_nil]
  refine matchToks_stepY hy2 ?_
  refine matchToks_stepLit ?_
  refine matchToks_step2 (by decide) (by omega) hokm ?_
  refine matchToks_stepLit ?_
  refine matchToks_step2 (by decide) (by omega) hokd ?_
  refine matchToks_stepLit ?_
  refine matchToks_step2 (by decide) (by omega) hokH ?_
  refine matchToks_step2 (by decide) (by omega) hokM ?_
  refine matchToks_step2 (by decide) (by omega) hokS ?_
  rfl

theorem strptime_canonical (t : Timestamp) (h : t.Valid) :
    strptime SNAPSHOT_TIMESTAMP_FORMAT ⟨strftimeTok snapshotFormatTokens t⟩ =
      some t.truncate := by
  have hv' : (⟨t.year, t.month, t.day, t.hour, t.minute, t.second, 0⟩ : Timestamp).Valid := by
    obtain ⟨hy1, hy2, hm1, hm2, hd1, hd2, hH, hM, hS, _⟩ := h
    exact ⟨hy1, hy2, hm1, hm2, hd1, hd2, hH, hM, hS, show (0 : Nat) ≤ 999999 by omega⟩
  rw [strptime, tokenize_snapshot_format]
  dsimp only
  rw [matchToks_canonical t h]
  simp only [Option.getD_some]
  rw [if_pos hv']
  rfl

/-- Claim C4: composing the snapshot namer with the timestamp matcher used
for staleness checking recovers the timestamp truncated to whole seconds, for
every volume string and every valid `datetime`: the canonical format is the
first member of the fallback family and matches the canonical rendering
exactly. -/
theorem snapshot_name_roundtrip (vol : String) (t : Timestamp) (h : t.Valid) :
    parse_snapshot_timestamp (name_for vol t) = .ok t.truncate := by
  have hno_at : '@' ∉ (SNAPSHOT_PREFIX ++ "_").data ++ strftimeTok snapshotFormatTokens t := by
    intro hmem
    rcases List.mem_append.mp hmem with hmem | hmem
    · revert hmem
      decide
    · exact strftime_snapshot_no_at t hmem
  have hdata : (name_for vol t).data =
      vol.data ++ '@' :: ((SNAPSHOT_PREFIX ++ "_").data ++
        strftimeTok snapshotFormatTokens t) := by
    simp [name_for, String.data_append, List.append_assoc, SNAPSHOT_PREFIX]
  rw [parse_snapshot_timestamp, hdata, afterLastAt_append _ _ hno_at]
  dsimp only
  rw [show SNAPSHOT_PREFIX.length + 1 = ((SNAPSHOT_PREFIX ++ "_").data).length from rfl,
    List.drop_left]
  obtain ⟨rest, hrest⟩ : ∃ r, timestamp_formats = SNAPSHOT_TIMESTAMP_FORMAT :: r :=
    ⟨_, rfl⟩
  rw [hrest, firstParse, strptime_canonical t h]

/-- Witness for `snapshot_name_roundtrip` at a concrete volume and
timestamp (microseconds 789 are dropped). -/
theorem snapshot_name_roundtrip_witness :
    parse_snapshot_timestamp (name_for "tank/usr" ⟨2021, 3, 5, 12, 34, 56, 789⟩) =
      .ok ⟨2021, 3, 5, 12, 34, 56, 0⟩ :=
  snapshot_name_roundtrip "tank/usr" ⟨2021, 3, 5, 12, 34, 56, 789⟩ (by decide)

/-! ### Claim C5: the staleness boundary -/

theorem list_old_mem_iff (nowUs period : Int) :
    ∀ (l res : List String), list_old_model nowUs period l = .ok res →
      ∀ x, (x ∈ res ↔ x ∈ l ∧ ∃ tx, parse_snapshot_timestamp x = .ok tx ∧
        toEpochMicros tx < nowUs - period * 86400000000)
  | [], res, hres, x => by
    cases hres
    simp
  | s :: rest, res, hres, x => by
    rw [list_old_model] at hres
    cases hp : parse_snapshot_timestamp s with
    | error e =>
      rw [hp] at hres
      cases hres
    | ok ts =>
      rw [hp] at hres
      dsimp only at hres
      cases hrec : list_old_model nowUs period rest with
      | error e =>
        rw [hrec] at hres
        cases hres
      | ok tail =>
        rw [hrec] at hres
        dsimp only at hres
        have ih := list_old_mem_iff nowUs period rest tail hrec x
        by_cases hcond : toEpochMicros ts < nowUs - period * 86400000000
        · rw [if_pos hcond] at hres
          cases hres
          constructor
          · intro hx
            rcases List.mem_cons.mp hx with rfl | hx'
            · exact ⟨List.mem_cons_self _ _, ts, hp, hcond⟩
            · obtain ⟨hmem, tx, hptx, hlt⟩ := ih.mp hx'
              exact ⟨List.mem_cons_of_mem _ hmem, tx, hptx, hlt⟩
          · rintro ⟨hmem, tx, hptx, hlt⟩
            rcases List.mem_cons.mp hmem with rfl | hmem'
            · exact List.mem_cons_self _ _
            · exact List.mem_cons_of_mem _ (ih.mpr ⟨hmem', tx, hptx, hlt⟩)
        · rw [if_neg hcond] at hres
          cases hres
          constructor
          · intro hx
            obtain ⟨hmem, tx, hptx, hlt⟩ := ih.mp hx
            exact ⟨List.mem_cons_of_mem _ hmem, tx, hptx, hlt⟩
          · rintro ⟨hmem, tx, hptx, hlt⟩
            rcases List.mem_cons.mp hmem with rfl | hmem'
            · rw [hp] at hptx
              cases hptx
              exact absurd hlt hcond
            · exact ih.mpr ⟨hmem', tx, hptx, hlt⟩

/-- Claim C5: the staleness window is exclusive on its boundary — a snapshot
whose parsed timestamp is exactly `now - period` days is not listed as old,
while one strictly older (by any amount, e.g. one second) is. -/
theorem list_old_staleness_boundary (nowUs period : Int) (snaps res : List String)
    (name : String) (ts : Timestamp)
    (hres : list_old_model nowUs period snaps = .ok res)
    (hmem : name ∈ snaps)
    (hparse : parse_snapshot_timestamp name = .ok ts) :
    (toEpochMicros ts = nowUs - period * 86400000000 → name ∉ res) ∧
    (toEpochMicros ts < nowUs - period * 86400000000 → name ∈ res) := by
  have hiff := list_old_mem_iff nowUs period snaps res hres name
  constructor
  · intro heq hin
    obtain ⟨_, tx, hptx, hlt⟩ := hiff.mp hin
    rw [hparse] at hptx
    cases hptx
    omega
  · intro hlt
    exact hiff.mpr ⟨hmem, ts, hparse, hlt⟩

/-- Witness for `list_old_staleness_boundary` with a 30-day window: the
snapshot exactly 30 days old is kept, the one 30 days and one second old is
listed. -/
theorem list_old_staleness_boundary_witness :
    "tank@zfs-apt-snap_2020-01-02T030405" ∉ ["tank@zfs-apt-snap_2020-01-02T030404"] ∧
    "tank@zfs-apt-snap_2020-01-02T030404" ∈ ["tank@zfs-apt-snap_2020-01-02T030404"] :=
  ⟨(list_old_staleness_boundary 1580526245000000 30
      ["tank@zfs-apt-snap_2020-01-02T030405", "tank@zfs-apt-snap_2020-01-02T030404"]
      ["tank@zfs-apt-snap_2020-01-02T030404"]
      "tank@zfs-apt-snap_2020-01-02T030405" ⟨2020, 1, 2, 3, 4, 5, 0⟩
      (by rfl) (by simp) (by rfl)).1 (by decide),
    (list_old_staleness_boundary 1580526245000000 30
      ["tank@zfs-apt-snap_2020-01-02T030405", "tank@zfs-apt-snap_2020-01-02T030404"]
      ["tank@zfs-apt-snap_2020-01-02T030404"]
      "tank@zfs-apt-snap_2020-01-02T030404" ⟨2020, 1, 2, 3, 4, 4, 0⟩
      (by rfl) (by simp) (by rfl)).2 (by decide)⟩

end ZfsAptSnapshot
